import Mathlib

/-!
# Verification of the resume persistence and rendering pipeline (`src/app.py`)

This file gives a shallow embedding, in Lean 4, of the document-store and
PDF-renderer core of the Flask resume application:

* the JSON document store (`save_resume_data`, `load_resume_data`,
  `get_saved_resumes`, `app.py` lines 51-78),
* the per-line text-to-paragraph classifier of `save_to_pdf`
  (`app.py` lines 29-47), and
* the `download_resume` route body (`app.py` lines 211-215).

Python strings are Lean `String`s (worked with mostly as `List Char`), the
file system is an explicit association list from canonical paths to file
contents, and the Python standard-library calls the code makes
(`json.dump`/`json.load` on string-keyed string dictionaries, `str.replace`,
`str.strip`, `os.path.join`, `os.listdir`) are modelled by executable Lean
functions with the same observable behaviour on the values the program
feeds them.  Exceptions are modelled with `Except`; a `try`/`except` block
becomes a `match` on the `Except` value.  Console output (`print`) is an
explicit log (`List String`) returned alongside the result.
-/

/-! ## Records

The application persists one record per resume: a string-keyed dictionary
whose values are all strings (`app.py` lines 188-200).  A Python `dict`
preserves insertion order, so a record is embedded as an association list. -/

/-- A resume record: a string-keyed mapping with string values, in insertion
order, as built at `app.py` lines 188-200. -/
abbrev Record := List (String × String)

/-! ## A model of `json.dump` / `json.load` on records

`save_resume_data` calls `json.dump(resume_data, f, indent=4)` and
`load_resume_data` calls `json.load(f)`, catching `json.JSONDecodeError`
(`app.py` lines 56 and 68).  The encoder below produces the same layout
`json.dump` produces for a flat string-to-string dictionary with
`indent=4` (escaping `\`, `"` and control characters; non-ASCII characters
are kept literal, which does not change the decode-of-encode behaviour),
and the decoder is a recursive-descent parser for JSON objects whose keys
and values are strings, returning `none` exactly where `json.load` would
raise `json.JSONDecodeError` on such a document. -/

/-- Lowercase hexadecimal digit for `n < 16`, as used in JSON `\uXXXX`
escapes. -/
def hexDigitChar (n : Nat) : Char :=
  if n < 10 then Char.ofNat (48 + n) else Char.ofNat (87 + n)

/-- Four-digit lowercase hexadecimal rendering of `n < 0x10000`. -/
def toHex4 (n : Nat) : List Char :=
  [hexDigitChar (n / 4096 % 16), hexDigitChar (n / 256 % 16),
   hexDigitChar (n / 16 % 16), hexDigitChar (n % 16)]

/-- Numeric value of one hexadecimal digit, `none` on any other
character. -/
def hexVal (c : Char) : Option Nat :=
  if '0' ≤ c ∧ c ≤ '9' then some (c.toNat - 48)
  else if 'a' ≤ c ∧ c ≤ 'f' then some (c.toNat - 87)
  else if 'A' ≤ c ∧ c ≤ 'F' then some (c.toNat - 55)
  else none

/-- JSON escaping of a single character, as `json.dump` performs inside
string literals: backslash, double quote and the common control characters
get two-character escapes, remaining control characters get `\u00XX`, and
every other character stands for itself. -/
def escChar (c : Char) : List Char :=
  if c = '\\' then ['\\', '\\']
  else if c = '"' then ['\\', '"']
  else if c = '\n' then ['\\', 'n']
  else if c = '\t' then ['\\', 't']
  else if c = '\r' then ['\\', 'r']
  else if c.toNat < 32 then '\\' :: 'u' :: toHex4 c.toNat
  else [c]

/-- JSON escaping of a whole string body. -/
def escString (s : List Char) : List Char := (s.map escChar).flatten

/-- One `"key": "value"` member line as `json.dump(..., indent=4)` writes
it: four spaces of indentation, the quoted escaped key, a colon and a
space, the quoted escaped value. -/
def encPair (p : String × String) : List Char :=
  ' ' :: ' ' :: ' ' :: ' ' :: '"' :: escString p.1.data ++
    '"' :: ':' :: ' ' :: '"' :: escString p.2.data ++ ['"']

/-- The members after the first, each preceded by a comma and a newline,
followed by the closing newline and brace. -/
def encRest : Record → List Char
  | [] => ['\n', '}']
  | q :: qs => ',' :: '\n' :: (encPair q ++ encRest qs)

/-- The full document `json.dump(r, f, indent=4)` writes for the record
`r`: `\x7b\x7d` for the empty record, otherwise an opening brace, the
indented members separated by commas, and a closing brace on its own
line. -/
def encode : Record → List Char
  | [] => ['{', '}']
  | p :: ps => '{' :: '\n' :: (encPair p ++ encRest ps)

/-- The serialized text of a record, as a `String`. -/
def dumps (r : Record) : String := String.mk (encode r)

/-- JSON insignificant whitespace. -/
def isJsonWS (c : Char) : Bool :=
  c = ' ' || c = '\n' || c = '\t' || c = '\r'

/-- Skip insignificant whitespace. -/
def skipWS : List Char → List Char
  | [] => []
  | c :: cs => if isJsonWS c then skipWS cs else c :: cs

/-- Parse the body of a JSON string literal after its opening quote,
returning the decoded content and the input remaining after the closing
quote; `none` on a malformed literal (an unknown escape, a bare control
character, or a missing closing quote). -/
def parseStr : List Char → Option (List Char × List Char)
  | [] => none
  | c :: cs =>
    if c = '"' then some ([], cs)
    else if c = '\\' then
      match cs with
      | [] => none
      | e :: cs2 =>
        if e = '"' then (parseStr cs2).map (fun p => ('"' :: p.1, p.2))
        else if e = '\\' then (parseStr cs2).map (fun p => ('\\' :: p.1, p.2))
        else if e = '/' then (parseStr cs2).map (fun p => ('/' :: p.1, p.2))
        else if e = 'n' then (parseStr cs2).map (fun p => ('\n' :: p.1, p.2))
        else if e = 't' then (parseStr cs2).map (fun p => ('\t' :: p.1, p.2))
        else if e = 'r' then (parseStr cs2).map (fun p => ('\r' :: p.1, p.2))
        else if e = 'b' then (parseStr cs2).map (fun p => (Char.ofNat 8 :: p.1, p.2))
        else if e = 'f' then (parseStr cs2).map (fun p => (Char.ofNat 12 :: p.1, p.2))
        else if e = 'u' then
          match cs2 with
          | h1 :: h2 :: h3 :: h4 :: cs3 =>
            match hexVal h1, hexVal h2, hexVal h3, hexVal h4 with
            | some a, some b, some c3, some d =>
              (parseStr cs3).map
                (fun p => (Char.ofNat (4096 * a + 256 * b + 16 * c3 + d) :: p.1, p.2))
            | _, _, _, _ => none
          | _ => none
        else none
    else if c.toNat < 32 then none
    else (parseStr cs).map (fun p => (c :: p.1, p.2))

/-- Parse one `"key": "value"` member, leading whitespace allowed,
returning the pair and the remaining input. -/
def parsePair (cs : List Char) : Option ((String × String) × List Char) :=
  match skipWS cs with
  | '"' :: cs1 =>
    match parseStr cs1 with
    | some (k, cs2) =>
      match skipWS cs2 with
      | ':' :: cs3 =>
        match skipWS cs3 with
        | '"' :: cs4 =>
          match parseStr cs4 with
          | some (v, cs5) => some ((String.mk k, String.mk v), cs5)
          | none => none
        | _ => none
      | _ => none
    | none => none
  | _ => none

/-- Parse the members of a JSON object after its opening brace: one or
more `"key": "value"` pairs separated by commas, ending at the closing
brace, which is consumed.  The `fuel` argument bounds the number of
members; callers pass the length of the input plus one, which every
member list fits under because each member occupies at least five
characters. -/
def parseMembers : Nat → List Char → Option (Record × List Char)
  | 0, _ => none
  | fuel + 1, cs =>
    match parsePair cs with
    | none => none
    | some (p, rest) =>
      match skipWS rest with
      | ',' :: rest2 => (parseMembers fuel rest2).map (fun q => (p :: q.1, q.2))
      | '}' :: rest2 => some ([p], rest2)
      | _ => none

/-- The model of `json.load` restricted to the documents this program
stores: a JSON object whose keys and values are all strings.  Returns the
decoded record, or `none` exactly where `json.load` raises
`json.JSONDecodeError` on such a document (including trailing garbage
after the closing brace). -/
def json_loads (s : String) : Option Record :=
  match skipWS s.data with
  | [] => none
  | c :: cs =>
    if c = '{' then
      match skipWS cs with
      | [] => none
      | c2 :: cs2 =>
        if c2 = '}' then (if skipWS cs2 = [] then some [] else none)
        else
          match parseMembers (cs.length + 1) cs with
          | some (ps, rest) => if skipWS rest = [] then some ps else none
          | none => none
    else none

/-! ## Decode-of-encode: the JSON codec round-trips on records -/

theorem skipWS_nil : skipWS [] = [] := rfl

theorem skipWS_space (x : List Char) : skipWS (' ' :: x) = skipWS x := rfl

theorem skipWS_newline (x : List Char) : skipWS ('\n' :: x) = skipWS x := rfl

theorem skipWS_quote (x : List Char) : skipWS ('"' :: x) = '"' :: x := rfl

theorem skipWS_colon (x : List Char) : skipWS (':' :: x) = ':' :: x := rfl

theorem skipWS_comma (x : List Char) : skipWS (',' :: x) = ',' :: x := rfl

theorem skipWS_rbrace (x : List Char) : skipWS ('}' :: x) = '}' :: x := rfl

theorem hexVal_hexDigitChar : ∀ m < 16, hexVal (hexDigitChar m) = some m := by decide

theorem parseStr_quote (tail : List Char) : parseStr ('"' :: tail) = some ([], tail) := by
  rw [parseStr.eq_def]
  simp

theorem parseStr_escQuote (tail : List Char) :
    parseStr ('\\' :: '"' :: tail) = (parseStr tail).map (fun p => ('"' :: p.1, p.2)) := by
  rw [parseStr.eq_def]
  simp

theorem parseStr_escBackslash (tail : List Char) :
    parseStr ('\\' :: '\\' :: tail) = (parseStr tail).map (fun p => ('\\' :: p.1, p.2)) := by
  rw [parseStr.eq_def]
  simp

theorem parseStr_escN (tail : List Char) :
    parseStr ('\\' :: 'n' :: tail) = (parseStr tail).map (fun p => ('\n' :: p.1, p.2)) := by
  rw [parseStr.eq_def]
  simp

theorem parseStr_escT (tail : List Char) :
    parseStr ('\\' :: 't' :: tail) = (parseStr tail).map (fun p => ('\t' :: p.1, p.2)) := by
  rw [parseStr.eq_def]
  simp

theorem parseStr_escR (tail : List Char) :
    parseStr ('\\' :: 'r' :: tail) = (parseStr tail).map (fun p => ('\r' :: p.1, p.2)) := by
  rw [parseStr.eq_def]
  simp

theorem parseStr_escU (d1 d2 d3 d4 : Char) (tail : List Char) :
    parseStr ('\\' :: 'u' :: d1 :: d2 :: d3 :: d4 :: tail) =
      match hexVal d1, hexVal d2, hexVal d3, hexVal d4 with
      | some a, some b, some c, some d =>
        (parseStr tail).map (fun p => (Char.ofNat (4096 * a + 256 * b + 16 * c + d) :: p.1, p.2))
      | _, _, _, _ => none := by
  rw [parseStr.eq_def]
  simp

theorem parseStr_plain (c : Char) (tail : List Char) (hq : c ≠ '"') (hb : c ≠ '\\')
    (hc : ¬ c.toNat < 32) :
    parseStr (c :: tail) = (parseStr tail).map (fun p => (c :: p.1, p.2)) := by
  rw [parseStr.eq_def]
  simp [hq, hb, hc]

theorem parseStr_escString (s rest : List Char) :
    parseStr (escString s ++ '"' :: rest) = some (s, rest) := by
  induction s with
  | nil => simp [escString, parseStr_quote]
  | cons c s ih =>
    have hstep : escString (c :: s) = escChar c ++ escString s := by
      simp [escString]
    rw [hstep, List.append_assoc]
    by_cases h1 : c = '\\'
    · subst h1
      simp [escChar, parseStr_escBackslash, ih]
    · by_cases h2 : c = '"'
      · subst h2
        simp [escChar, parseStr_escQuote, ih]
      · by_cases h3 : c = '\n'
        · subst h3
          simp [escChar, parseStr_escN, ih]
        · by_cases h4 : c = '\t'
          · subst h4
            simp [escChar, parseStr_escT, ih]
          · by_cases h5 : c = '\r'
            · subst h5
              simp [escChar, parseStr_escR, ih]
            · by_cases h6 : c.toNat < 32
              · have e0 : c.toNat / 4096 % 16 = 0 := by omega
                have e1 : c.toNat / 256 % 16 = 0 := by omega
                have e2 : c.toNat / 16 % 16 = c.toNat / 16 := by omega
                have h16 : c.toNat / 16 < 16 := by omega
                have hm : c.toNat % 16 < 16 := by omega
                simp only [escChar, h1, h2, h3, h4, h5, h6, if_false, if_pos, if_true,
                  if_neg, toHex4, e0, e1, e2, List.cons_append, List.nil_append,
                  parseStr_escU, hexVal_hexDigitChar 0 (by omega),
                  hexVal_hexDigitChar _ h16, hexVal_hexDigitChar _ hm, ih,
                  Option.map_some']
                have : 4096 * 0 + 256 * 0 + 16 * (c.toNat / 16) + c.toNat % 16 = c.toNat := by
                  omega
                rw [this, Char.ofNat_toNat]
              · simp only [escChar, h1, h2, h3, h4, h5, h6, if_false, if_neg,
                  not_false_iff, List.cons_append, List.nil_append]
                rw [parseStr_plain c _ h2 h1 h6, ih]
                simp

theorem string_data_mk (l : List Char) : (String.mk l).data = l := rfl

theorem skipWS_lbrace (x : List Char) : skipWS ('{' :: x) = '{' :: x := rfl

theorem parsePair_ws (c : Char) (cs : List Char) (h : isJsonWS c = true) :
    parsePair (c :: cs) = parsePair cs := by
  simp only [parsePair, skipWS, h, if_true]

theorem skipWS_encPair (p : String × String) (t : List Char) :
    skipWS (encPair p ++ t) =
      '"' :: (escString p.1.data ++
        ('"' :: ':' :: ' ' :: '"' :: (escString p.2.data ++ '"' :: t))) := by
  obtain ⟨k, v⟩ := p
  simp only [encPair, List.cons_append, List.append_assoc, List.nil_append,
    skipWS_space, skipWS_quote]

theorem parsePair_encPair (p : String × String) (tail : List Char) :
    parsePair (encPair p ++ tail) = some (p, tail) := by
  obtain ⟨k, v⟩ := p
  simp only [parsePair, skipWS_encPair, parseStr_escString, skipWS_colon,
    skipWS_space, skipWS_quote]

theorem parseMembers_ws (fuel : Nat) (c : Char) (cs : List Char) (h : isJsonWS c = true) :
    parseMembers (fuel + 1) (c :: cs) = parseMembers (fuel + 1) cs := by
  simp only [parseMembers, parsePair_ws c cs h]

theorem parseMembers_encode (p : String × String) (ps : Record) (fuel : Nat)
    (h : ps.length < fuel) :
    parseMembers fuel (encPair p ++ encRest ps) = some (p :: ps, []) := by
  induction ps generalizing p fuel with
  | nil =>
    obtain ⟨f, rfl⟩ : ∃ f, fuel = f + 1 := ⟨fuel - 1, by omega⟩
    simp only [parseMembers, parsePair_encPair, encRest, skipWS_newline, skipWS_rbrace]
  | cons q qs ih =>
    obtain ⟨f, rfl⟩ : ∃ f, fuel = f + 1 := ⟨fuel - 1, by omega⟩
    have hf : qs.length < f := by
      simp only [List.length_cons] at h
      omega
    obtain ⟨f2, rfl⟩ : ∃ f2, f = f2 + 1 := ⟨f - 1, by omega⟩
    rw [parseMembers, parsePair_encPair]
    simp only [encRest, skipWS_comma]
    rw [parseMembers_ws f2 '\n' _ (by decide), ih q (f2 + 1) hf]
    simp

theorem encRest_length (ps : Record) : ps.length ≤ (encRest ps).length := by
  induction ps with
  | nil => simp [encRest]
  | cons q qs ih =>
    simp only [encRest, List.length_cons, List.length_append]
    omega

theorem json_loads_dumps (r : Record) : json_loads (dumps r) = some r := by
  cases r with
  | nil => rfl
  | cons p ps =>
    have hlen : ps.length < ('\n' :: (encPair p ++ encRest ps)).length + 1 := by
      have h := encRest_length ps
      simp only [List.length_cons, List.length_append]
      omega
    have hmem := parseMembers_encode p ps (('\n' :: (encPair p ++ encRest ps)).length + 1) hlen
    simp only [List.length_cons, List.length_append] at hmem
    simp [json_loads, dumps, encode, string_data_mk, skipWS_lbrace, skipWS_newline,
      skipWS_encPair, isJsonWS, parseMembers_ws, hmem, skipWS_nil]

/-! ## Strings: Python `str.replace` and substring containment -/

/-- One left-to-right pass of Python `str.replace`: whenever the (nonempty)
pattern occurs, emit the replacement and continue after the occurrence;
occurrences are non-overlapping.  The `fuel` argument (structural, for
termination) bounds the number of characters processed; callers pass the
input length, under which the scan always completes because every step
consumes at least one character. -/
def listReplaceF (pat repl : List Char) : Nat → List Char → List Char
  | _, [] => []
  | 0, xs => xs
  | fuel + 1, c :: cs =>
    if pat.isPrefixOf (c :: cs) && !pat.isEmpty then
      repl ++ listReplaceF pat repl fuel (cs.drop (pat.length - 1))
    else c :: listReplaceF pat repl fuel cs

/-- Python `s.replace(pat, repl)` for a nonempty pattern (the program only
replaces the nonempty patterns `" "`, `"_"`, `"-"`, `"**"` and
`"_resume.json"`). -/
def pyReplace (s pat repl : String) : String :=
  String.mk (listReplaceF pat.data repl.data s.data.length s.data)

/-- Python `pat in s` — substring containment, as used by the renderer's
line classifier. -/
def containsSub (pat : List Char) : List Char → Bool
  | [] => pat.isEmpty
  | c :: cs => pat.isPrefixOf (c :: cs) || containsSub pat cs

/-! ## The file-system model

Files live in an association list from canonical paths to contents, in
creation order — the order in which `os.listdir` enumerates them is left
as this storage order (the real enumeration order is unspecified).  A path
is canonicalized the way the operating system resolves it: split on `/`,
drop empty and `.` segments, and let `..` discard the preceding
segment. -/

/-- The file system: an association list from canonical paths to file
contents. -/
abbrev FS := List (String × String)

/-- Split a character list at every occurrence of `sep`; the result always
has one more piece than there are separators (Python `str.split(sep)` for
a one-character separator). -/
def splitOnChar (sep : Char) : List Char → List (List Char)
  | [] => [[]]
  | c :: cs =>
    if c = sep then [] :: splitOnChar sep cs
    else
      match splitOnChar sep cs with
      | s :: ss => (c :: s) :: ss
      | [] => [[c]]

/-- Join path segments with `/`. -/
def joinSegs : List (List Char) → List Char
  | [] => []
  | [s] => s
  | s :: ss => s ++ '/' :: joinSegs ss

/-- Process path segments left to right against a stack: `.` and empty
segments vanish, `..` pops the stack, anything else is pushed. -/
def resolveSegs : List (List Char) → List (List Char) → List (List Char)
  | stack, [] => stack
  | stack, seg :: rest =>
    if seg = [] ∨ seg = ['.'] then resolveSegs stack rest
    else if seg = ['.', '.'] then resolveSegs stack.dropLast rest
    else resolveSegs (stack ++ [seg]) rest

/-- Canonical form of a path. -/
def resolvePath (p : String) : String :=
  String.mk (joinSegs (resolveSegs [] (splitOnChar '/' p.data)))

/-- Python `os.path.join(a, b)` on POSIX, for a first component without a
trailing slash: `b` when `b` is absolute, otherwise `a ++ "/" ++ b`. -/
def joinPath (a b : String) : String :=
  if ['/'].isPrefixOf b.data then b else a ++ "/" ++ b

/-- Content of the file at path `p`, `none` when no file exists there
(`os.path.exists` + `open(..., "r")`). -/
def fsRead (fs : FS) (p : String) : Option String :=
  (fs.find? (fun e => e.1 == resolvePath p)).map Prod.snd

/-- Create or overwrite the file at path `p` (`open(..., "w")` + write). -/
def fsWrite (fs : FS) (p v : String) : FS :=
  if fs.any (fun e => e.1 == resolvePath p) then
    fs.map (fun e => if e.1 == resolvePath p then (e.1, v) else e)
  else fs ++ [(resolvePath p, v)]

/-- Python `os.listdir dir`: the base names of the files lying directly in
`dir`, in storage order. -/
def listdir (dir : String) (fs : FS) : List String :=
  fs.filterMap (fun e =>
    if (dir.data ++ ['/']).isPrefixOf e.1.data &&
        !(e.1.data.drop (dir.data.length + 1)).contains '/' then
      some (String.mk (e.1.data.drop (dir.data.length + 1)))
    else none)

/-! ## The document store (`app.py` lines 51-78) -/

/-- The key derivation `name.replace(' ', '_')` applied at lines 53 and
64. -/
def normalize_name (name : String) : String := pyReplace name " " "_"

/-- The path computed at lines 53 and 64:
`os.path.join(SAVE_DIR, f"\x7bname.replace(' ', '_')\x7d_resume.json")`
with `SAVE_DIR = "saves"` (line 24). -/
def save_filename (name : String) : String :=
  joinPath "saves" (normalize_name name ++ "_resume.json")

/-- The body of the `try` block at lines 55-56: open the file for writing
and serialize the record into it with `json.dump`.  `writeOk = false`
models the environment making the I/O raise (disk full, permission
denied); the model then produces the exception the `except` clause
receives. -/
def save_attempt (filename content : String) (writeOk : Bool) (fs : FS) : Except String FS :=
  if writeOk then Except.ok (fsWrite fs filename content) else Except.error "I/O error"

/-- `save_resume_data` (lines 51-58): derive the file name, serialize the
record, and swallow any failure with a printed warning.  The result pairs
the new file system with the console log; the function has no error
result — the `except Exception` clause catches every exception. -/
def save_resume_data (name : String) (resume_data : Record) (writeOk : Bool) (fs : FS) :
    FS × List String :=
  match save_attempt (save_filename name) (dumps resume_data) writeOk fs with
  | Except.ok fs2 => (fs2, [])
  | Except.error e => (fs, ["⚠️ Error saving data: " ++ e])

/-- `load_resume_data` (lines 62-72): if the file exists, decode it with
`json.load`, printing a warning and returning `None` when that raises
`JSONDecodeError`; if the file does not exist, return `None`. -/
def load_resume_data (name : String) (fs : FS) : Option Record × List String :=
  match fsRead fs (save_filename name) with
  | some content =>
    match json_loads content with
    | some r => (some r, [])
    | none =>
      (none, ["⚠️ Error loading JSON: Corrupt or invalid file -> " ++ save_filename name])
  | none => (none, [])

/-- The transformation applied to each directory entry at line 78:
`file.replace("_resume.json", "").replace("_", " ")`. -/
def recoverName (file : String) : String :=
  pyReplace (pyReplace file "_resume.json" "") "_" " "

/-- `get_saved_resumes` (lines 76-78): enumerate `SAVE_DIR`, keep the
entries ending in `_resume.json`, and map each back to a display name. -/
def get_saved_resumes (fs : FS) : List String :=
  ((listdir "saves" fs).filter
    (fun f => "_resume.json".data.isSuffixOf f.data)).map recoverName

/-! ## The PDF renderer (`app.py` lines 29-47)

A built document is its list of flowables; a `Paragraph` is its markup
text together with the name of the style it was given. -/

/-- The stylesheet styles the renderer uses. -/
inductive Style where
  | Title
  | Heading2
  | Normal
deriving DecidableEq, Repr

/-- A ReportLab flowable as the renderer constructs it.  All spacers the
code emits are identical (`Spacer(1, 0.2 * inch)`). -/
inductive Flowable where
  | Paragraph (text : String) (style : Style)
  | Spacer
deriving DecidableEq, Repr

/-- Python `str` whitespace (its ASCII part): `text.strip()` is the empty
string exactly when every character of `text` satisfies this. -/
def isPyWS (c : Char) : Bool :=
  c = ' ' || c = '\t' || c = '\n' || c = '\r' || c = Char.ofNat 11 || c = Char.ofNat 12

/-- One iteration of the rendering loop (lines 38-45): classify `line` and
give the flowables appended for it — a spacer and a `Heading2` paragraph
with all `**` stripped when the line contains `**`; a `Normal` paragraph
prefixed with a bullet glyph and with all `-` removed when it contains a
hyphen; otherwise the line itself as a `Normal` paragraph. -/
def render_line (line : String) : List Flowable :=
  if containsSub "**".data line.data then
    [Flowable.Spacer,
     Flowable.Paragraph ("<b>" ++ pyReplace line "**" "" ++ "</b>") Style.Heading2]
  else if containsSub "-".data line.data then
    [Flowable.Paragraph ("• " ++ pyReplace line "-" "") Style.Normal]
  else
    [Flowable.Paragraph line Style.Normal]

/-- `save_to_pdf` (lines 29-47) up to the final `doc.build`: substitute
the placeholder when `text.strip()` is empty (line 31-32), emit the fixed
title paragraph and spacer (line 36), then classify each line of
`text.split("\n")` in order.  The resulting flowable list is exactly what
`doc.build(elements)` lays out into the destination PDF. -/
def save_to_pdf (text : String) : List Flowable :=
  let text2 := if text.data.all isPyWS then "No content available." else text
  [Flowable.Paragraph "<b>Resume</b>" Style.Title, Flowable.Spacer] ++
    ((splitOnChar '\n' text2.data).map (fun l => render_line (String.mk l))).flatten

/-! ## The download route (`app.py` lines 211-215) -/

/-- What the route body can produce: `send_file(filepath,
as_attachment=True)` on an existing file, or `abort(404, "File not
found.")`. -/
inductive Response where
  | attachment (path content : String)
  | httpError (code : Nat) (msg : String)
deriving DecidableEq, Repr

/-- `download_resume` (lines 211-215): join the caller-supplied file name
onto the save directory with no sanitization; send the file there as an
attachment if one exists, else abort with 404. -/
def download_resume (filename : String) (fs : FS) : Response :=
  match fsRead fs (joinPath "saves" filename) with
  | some content => Response.attachment (joinPath "saves" filename) content
  | none => Response.httpError 404 "File not found."

/-! ## Store lemmas -/

theorem find?_update (k v : String) (fs : FS) (h : fs.any (fun e => e.1 == k) = true) :
    ((fs.map (fun e => if e.1 == k then (e.1, v) else e)).find?
      (fun e => e.1 == k)).map Prod.snd = some v := by
  induction fs with
  | nil => simp at h
  | cons e fs ih =>
    by_cases he : (e.1 == k) = true
    · simp only [List.map_cons, if_pos he]
      have h3 : ((e.1, v) :: fs.map (fun e => if e.1 == k then (e.1, v) else e)).find?
          (fun x => x.1 == k) = some (e.1, v) := List.find?_cons_of_pos _ he
      rw [h3]
      simp
    · simp only [List.any_cons, Bool.or_eq_true] at h
      have h2 := h.resolve_left he
      simp only [List.map_cons, if_neg he]
      rw [List.find?_cons_of_neg]
      · exact ih h2
      · simp [he]

theorem find?_append_new (k v : String) (fs : FS)
    (h : fs.any (fun e => e.1 == k) = false) :
    ((fs ++ [(k, v)]).find? (fun e => e.1 == k)).map Prod.snd = some v := by
  induction fs with
  | nil => simp [List.find?]
  | cons e fs ih =>
    simp only [List.any_cons, Bool.or_eq_false_iff] at h
    simp only [List.cons_append]
    rw [List.find?_cons_of_neg]
    · exact ih h.2
    · simp [h.1]

/-- Reading back the freshly written path yields the written content. -/
theorem fsRead_fsWrite_self (fs : FS) (p v : String) :
    fsRead (fsWrite fs p v) p = some v := by
  simp only [fsRead, fsWrite]
  by_cases h : fs.any (fun e => e.1 == resolvePath p) = true
  · rw [if_pos h]
    exact find?_update _ _ _ h
  · rw [if_neg h]
    refine find?_append_new _ _ _ ?_
    rw [Bool.not_eq_true] at h
    exact h

/-! ## The claims -/

/-- C1: for any valid record `R` and any name `N`, calling `load(N)`
immediately after a (successful) `save(N, R)` returns a record deep-equal
to `R`.  The environment flag is `true`: the save's I/O succeeded — a
failed save is claim C4's subject. -/
theorem C1_save_load_roundtrip (name : String) (r : Record) (fs : FS) :
    (load_resume_data name (save_resume_data name r true fs).1).1 = some r := by
  simp [save_resume_data, save_attempt, load_resume_data,
    fsRead_fsWrite_self, json_loads_dumps]

/-- C4: `save` never raises to the caller: whatever the `try` body does,
`save_resume_data` returns an ordinary pair — when the body raises, the
failure is printed and swallowed, the file system is unchanged and the
caller gets no error indication; when it succeeds, the write lands and
nothing is logged. -/
theorem C4_save_never_raises (name : String) (r : Record) (fs : FS) (writeOk : Bool) :
    (∀ e, save_attempt (save_filename name) (dumps r) writeOk fs = Except.error e →
      save_resume_data name r writeOk fs = (fs, ["⚠️ Error saving data: " ++ e])) ∧
    (∀ fs2, save_attempt (save_filename name) (dumps r) writeOk fs = Except.ok fs2 →
      save_resume_data name r writeOk fs = (fs2, [])) := by
  constructor
  · intro e he
    simp [save_resume_data, he]
  · intro fs2 hok
    simp [save_resume_data, hok]

/-- Witness for C4: the concrete failing environment, the caller seeing
only a normal return with the file system untouched and a printed log. -/
theorem C4_save_never_raises_witness :
    save_resume_data "X" [] false [] = ([], ["⚠️ Error saving data: I/O error"]) := by
  have h := (C4_save_never_raises "X" [] [] false).1 "I/O error" rfl
  exact h.trans (by decide)

/-- C5: rendering an empty or all-whitespace text substitutes the exact
placeholder line "No content available." as the document body (one
`Normal` paragraph after the fixed title and spacer), not an empty
body. -/
theorem C5_blank_placeholder (text : String) (h : text.data.all isPyWS = true) :
    save_to_pdf text =
      [Flowable.Paragraph "<b>Resume</b>" Style.Title, Flowable.Spacer,
       Flowable.Paragraph "No content available." Style.Normal] := by
  simp only [save_to_pdf, h, if_true]
  decide

/-- Witness for C5 at a concrete whitespace-only input. -/
theorem C5_blank_placeholder_witness :
    ("  \n ".data.all isPyWS = true) ∧
    save_to_pdf "  \n " =
      [Flowable.Paragraph "<b>Resume</b>" Style.Title, Flowable.Spacer,
       Flowable.Paragraph "No content available." Style.Normal] :=
  ⟨by decide, C5_blank_placeholder "  \n " (by decide)⟩

/-- C6: every line containing the marker `**` anywhere is classified as a
section heading — a fixed spacer, then a `Heading2` paragraph with every
occurrence of `**` stripped — and this holds whether or not the line also
contains a hyphen, because the heading rule is evaluated first. -/
theorem C6_heading_precedence (line : String)
    (h : containsSub "**".data line.data = true) :
    render_line line =
      [Flowable.Spacer,
       Flowable.Paragraph ("<b>" ++ pyReplace line "**" "" ++ "</b>") Style.Heading2] := by
  simp [render_line, h]

/-- Witness for C6: a line containing both `**` and `-` renders as a
heading, not a bullet. -/
theorem C6_heading_precedence_witness :
    (containsSub "**".data "**Bold-Section**".data = true) ∧
    (containsSub "-".data "**Bold-Section**".data = true) ∧
    render_line "**Bold-Section**" =
      [Flowable.Spacer, Flowable.Paragraph "<b>Bold-Section</b>" Style.Heading2] :=
  ⟨by decide, by decide,
    (C6_heading_precedence "**Bold-Section**" (by decide)).trans (by decide)⟩

/-- C9: when the requested file does not exist under the store directory
the route produces the distinct 404 "not found" response — never a
substituted document — and when it exists, exactly that file is returned
as an attachment. -/
theorem C9_download_not_found (filename : String) (fs : FS) :
    (fsRead fs (joinPath "saves" filename) = none →
      download_resume filename fs = Response.httpError 404 "File not found.") ∧
    (∀ content, fsRead fs (joinPath "saves" filename) = some content →
      download_resume filename fs =
        Response.attachment (joinPath "saves" filename) content) := by
  constructor
  · intro h
    simp [download_resume, h]
  · intro c h
    simp [download_resume, h]

/-- Witness for C9: a missing file yields the 404 response. -/
theorem C9_download_not_found_witness :
    download_resume "nope_resume.json" [] = Response.httpError 404 "File not found." :=
  (C9_download_not_found "nope_resume.json" []).1 (by decide)

/-- C10 (implicit): the download route joins the caller-supplied file name
onto the store directory with no sanitization or containment check, so a
name with a `..` segment resolves outside the store directory and the
outside file is served when it exists: with `secret.txt` lying at the
root, next to (not inside) `saves`, requesting `../secret.txt` serves
it. -/
theorem C10_path_traversal :
    resolvePath (joinPath "saves" "../secret.txt") = "secret.txt" ∧
    (("saves".data ++ ['/']).isPrefixOf "secret.txt".data = false) ∧
    download_resume "../secret.txt" [("secret.txt", "TOP SECRET")] =
      Response.attachment "saves/../secret.txt" "TOP SECRET" := by
  refine ⟨by decide, by decide, by decide⟩

/-- C2: the on-disk key is `saves/<name with spaces replaced by
underscores>_resume.json`, and the derivation is deterministic: any two
display names with the same normalization use the same file, so the later
save silently overwrites the earlier record (the overwritten record is
what a load then returns), and a save under "Jane Doe" and a lookup under
the pre-normalized "Jane_Doe" resolve to the same file. -/
theorem C2_key_normalization (n1 n2 : String) (r1 r2 : Record) (fs : FS)
    (h : normalize_name n1 = normalize_name n2) :
    save_filename n1 = save_filename n2 ∧
    (load_resume_data n1
      (save_resume_data n2 r2 true (save_resume_data n1 r1 true fs).1).1).1 = some r2 ∧
    save_filename "Jane Doe" = "saves/Jane_Doe_resume.json" ∧
    save_filename "Jane_Doe" = "saves/Jane_Doe_resume.json" := by
  have hk : save_filename n1 = save_filename n2 := by
    simp [save_filename, h]
  refine ⟨hk, ?_, by decide, by decide⟩
  simp only [save_resume_data, save_attempt, if_true, load_resume_data, hk]
  simp [fsRead_fsWrite_self, json_loads_dumps]

/-- Witness for C2: "Jane Doe" and "Jane_Doe" collide, and the second
save wins. -/
theorem C2_key_normalization_witness :
    (load_resume_data "Jane Doe"
      (save_resume_data "Jane_Doe" [("k", "v")] true
        (save_resume_data "Jane Doe" [("a", "b")] true []).1).1).1 = some [("k", "v")] :=
  (C2_key_normalization "Jane Doe" "Jane_Doe" [("a", "b")] [("k", "v")] [] (by decide)).2.1

/-- C3: `load` returns the decoded record when the file exists and its
contents decode, and an ordinary null return — never a propagated
error — when the file does not exist or its contents fail to decode (the
decode failure is additionally logged). -/
theorem C3_load_absent_or_corrupt (name : String) (fs : FS) :
    (fsRead fs (save_filename name) = none → load_resume_data name fs = (none, [])) ∧
    (∀ s, fsRead fs (save_filename name) = some s →
      (∀ r, json_loads s = some r → load_resume_data name fs = (some r, [])) ∧
      (json_loads s = none →
        load_resume_data name fs =
          (none, ["⚠️ Error loading JSON: Corrupt or invalid file -> " ++
            save_filename name]))) := by
  constructor
  · intro h
    simp [load_resume_data, h]
  · intro s hs
    constructor
    · intro r hr
      simp [load_resume_data, hs, hr]
    · intro hnone
      simp [load_resume_data, hs, hnone]

/-- Witness for C3: a file holding bytes that are not JSON makes `load`
return the null result with a log entry, not an error. -/
theorem C3_load_absent_or_corrupt_witness :
    load_resume_data "Bad" [("saves/Bad_resume.json", "not json")] =
      (none, ["⚠️ Error loading JSON: Corrupt or invalid file -> saves/Bad_resume.json"]) := by
  have h := ((C3_load_absent_or_corrupt "Bad"
    [("saves/Bad_resume.json", "not json")]).2 "not json" (by decide)).2 (by decide)
  exact h.trans (by decide)

/-! ## Hyphen removal is complete (for C7) -/

theorem listReplaceF_single_empty (c : Char) (fuel : Nat) :
    ∀ xs : List Char, xs.length ≤ fuel →
      listReplaceF [c] [] fuel xs = xs.filter (fun x => !(c == x)) := by
  induction fuel with
  | zero =>
    intro xs h
    cases xs with
    | nil => simp [listReplaceF]
    | cons x xs => simp at h
  | succ fuel ih =>
    intro xs h
    cases xs with
    | nil => simp [listReplaceF]
    | cons x xs =>
      have hlen : xs.length ≤ fuel := by
        simp only [List.length_cons] at h
        omega
      by_cases hc : (c == x) = true
      · simp [listReplaceF, List.isPrefixOf, hc, ih xs hlen]
      · simp [listReplaceF, List.isPrefixOf, hc, ih xs hlen]

theorem containsSub_single (c : Char) (xs : List Char) :
    containsSub [c] xs = xs.any (fun x => c == x) := by
  induction xs with
  | nil => simp [containsSub]
  | cons x xs ih => simp [containsSub, List.isPrefixOf, ih]

/-- C7: a line containing no `**` but containing a hyphen anywhere is
rendered as a single bulleted `Normal` paragraph: the bullet glyph and a
space are prefixed and every hyphen character is removed from the line
text (the replaced text contains no hyphen at all). -/
theorem C7_bullet_stripping (line : String)
    (hno : containsSub "**".data line.data = false)
    (hyes : containsSub "-".data line.data = true) :
    render_line line =
      [Flowable.Paragraph ("• " ++ pyReplace line "-" "") Style.Normal] ∧
    containsSub "-".data (pyReplace line "-" "").data = false := by
  constructor
  · simp [render_line, hno, hyes]
  · show containsSub ['-'] (pyReplace line "-" "").data = false
    rw [containsSub_single]
    have h2 := listReplaceF_single_empty '-' line.data.length line.data (le_refl _)
    show (listReplaceF ['-'] [] line.data.length line.data).any (fun x => '-' == x) = false
    rw [h2]
    simp only [List.any_eq_false]
    intro a ha
    have := (List.mem_filter.mp ha).2
    simp at this ⊢
    exact this

/-- Witness for C7: the spec's own example line. -/
theorem C7_bullet_stripping_witness :
    render_line "- Skill: Python" =
      [Flowable.Paragraph "•  Skill: Python" Style.Normal] ∧
    (containsSub "Skill: Python".data "•  Skill: Python".data = true) := by
  have h := C7_bullet_stripping "- Skill: Python" (by decide) (by decide)
  exact ⟨h.1.trans (by decide), by decide⟩

/-! ## Path-resolution facts for the listing claim (C8) -/

theorem splitOnChar_no_sep (sep : Char) (xs : List Char) (h : sep ∉ xs) :
    splitOnChar sep xs = [xs] := by
  induction xs with
  | nil => rfl
  | cons c cs ih =>
    simp only [List.mem_cons, not_or] at h
    simp [splitOnChar, Ne.symm h.1, ih h.2]

theorem resolvePath_saves (b : List Char) (hslash : '/' ∉ b) (hne : ¬ b = [])
    (hd1 : ¬ b = ['.']) (hd2 : ¬ b = ['.', '.']) :
    resolvePath (String.mk ("saves/".data ++ b)) = String.mk ("saves/".data ++ b) := by
  have hb : splitOnChar '/' b = [b] := splitOnChar_no_sep '/' b hslash
  have hsplit : splitOnChar '/' ('s' :: 'a' :: 'v' :: 'e' :: 's' :: '/' :: b) =
      [['s', 'a', 'v', 'e', 's'], b] := by
    simp [splitOnChar, hb]
  have hres : resolveSegs [] [['s', 'a', 'v', 'e', 's'], b] =
      [['s', 'a', 'v', 'e', 's'], b] := by
    simp [resolveSegs, hne, hd1, hd2]
  show String.mk (joinSegs (resolveSegs []
      (splitOnChar '/' ('s' :: 'a' :: 'v' :: 'e' :: 's' :: '/' :: b)))) =
    String.mk ('s' :: 'a' :: 'v' :: 'e' :: 's' :: '/' :: b)
  rw [hsplit, hres]
  rfl

theorem save_filename_data (n : String) (h : '/' ∉ (normalize_name n).data) :
    (save_filename n).data =
      "saves/".data ++ ((normalize_name n).data ++ "_resume.json".data) := by
  have habs : (['/'].isPrefixOf (normalize_name n ++ "_resume.json").data) = false := by
    rw [String.data_append]
    cases hc : (normalize_name n).data with
    | nil => decide
    | cons c cs =>
      have hmem : c ∈ (normalize_name n).data := by
        rw [hc]
        exact List.mem_cons_self c cs
      have hcne : ('/' == c) = false := by
        refine beq_eq_false_iff_ne.mpr ?_
        intro he
        exact h (he ▸ hmem)
      simp [List.isPrefixOf, hcne]
  simp only [save_filename, joinPath, habs, Bool.false_eq_true, if_false]
  rw [String.data_append, String.data_append, String.data_append]
  rfl

theorem base_ne_short (x s y : List Char) (hs : 2 < s.length) (hy : y.length ≤ 2) :
    x ++ s ≠ y := by
  intro he
  have hlen := congrArg List.length he
  simp only [List.length_append] at hlen
  omega

theorem resolvePath_save_filename (n : String) (h : '/' ∉ (normalize_name n).data) :
    resolvePath (save_filename n) = save_filename n := by
  have hdata := save_filename_data n h
  have heq : save_filename n =
      String.mk ("saves/".data ++ ((normalize_name n).data ++ "_resume.json".data)) := by
    rw [← hdata]
  rw [heq]
  have h12 : (2 : Nat) < "_resume.json".data.length := by decide
  refine resolvePath_saves _ ?_ ?_ ?_ ?_
  · intro hmem
    rcases List.mem_append.mp hmem with hm | hm
    · exact h hm
    · exact absurd hm (by decide)
  · exact base_ne_short _ _ _ h12 (by decide)
  · exact base_ne_short _ _ _ h12 (by decide)
  · exact base_ne_short _ _ _ h12 (by decide)

theorem save_filename_inj (n1 n2 : String) (h1 : '/' ∉ (normalize_name n1).data)
    (h2 : '/' ∉ (normalize_name n2).data) (hne : normalize_name n1 ≠ normalize_name n2) :
    save_filename n1 ≠ save_filename n2 := by
  intro he
  have hd := congrArg String.data he
  rw [save_filename_data n1 h1, save_filename_data n2 h2] at hd
  have hmid := List.append_cancel_left hd
  have hnorm := List.append_cancel_right hmid
  exact hne (String.ext hnorm)

theorem listdir_saves_entry (K : String) (b : List Char)
    (hK : K.data = "saves/".data ++ b) (hb : '/' ∉ b) :
    (if ("saves".data ++ ['/']).isPrefixOf K.data &&
        !(K.data.drop ("saves".data.length + 1)).contains '/' then
      some (String.mk (K.data.drop ("saves".data.length + 1)))
    else none) = some (String.mk b) := by
  have hpre : ("saves".data ++ ['/'] : List Char) = "saves/".data := by decide
  have hlen : "saves".data.length + 1 = "saves/".data.length := by decide
  rw [hK, hpre, hlen, List.drop_left]
  have hpfx : ("saves/".data.isPrefixOf ("saves/".data ++ b)) = true := by
    rw [List.isPrefixOf_iff_prefix]
    exact List.prefix_append _ _
  have hcont : b.contains '/' = false := by
    simpa using hb
  rw [hpfx, hcont]
  rfl

theorem fsWrite_nil (p v : String) : fsWrite [] p v = [(resolvePath p, v)] := by
  simp [fsWrite]

theorem fsWrite_append_new (fs : FS) (p v : String)
    (h : fs.any (fun e => e.1 == resolvePath p) = false) :
    fsWrite fs p v = fs ++ [(resolvePath p, v)] := by
  simp only [fsWrite, h]
  rfl

/-- C8: after three saves under display names with pairwise distinct
normalized forms (containing no path separator) into an empty store, the
listing returns exactly the three names recovered from the stored file
names — the `_resume.json` suffix removed and underscores turned back
into spaces — as a set (the enumeration order is not asserted). -/
theorem C8_list_after_three_saves (n1 n2 n3 : String) (r1 r2 r3 : Record)
    (h1 : '/' ∉ (normalize_name n1).data)
    (h2 : '/' ∉ (normalize_name n2).data)
    (h3 : '/' ∉ (normalize_name n3).data)
    (d12 : normalize_name n1 ≠ normalize_name n2)
    (d13 : normalize_name n1 ≠ normalize_name n3)
    (d23 : normalize_name n2 ≠ normalize_name n3) :
    (get_saved_resumes
      (save_resume_data n3 r3 true
        (save_resume_data n2 r2 true
          (save_resume_data n1 r1 true ([] : FS)).1).1).1 : Multiset String) =
      {recoverName (normalize_name n1 ++ "_resume.json"),
       recoverName (normalize_name n2 ++ "_resume.json"),
       recoverName (normalize_name n3 ++ "_resume.json")} := by
  have hK1 := resolvePath_save_filename n1 h1
  have hK2 := resolvePath_save_filename n2 h2
  have hK3 := resolvePath_save_filename n3 h3
  have hne12 := save_filename_inj n1 n2 h1 h2 d12
  have hne13 := save_filename_inj n1 n3 h1 h3 d13
  have hne23 := save_filename_inj n2 n3 h2 h3 d23
  have e1 : (save_resume_data n1 r1 true ([] : FS)).1 =
      [(save_filename n1, dumps r1)] := by
    show (fsWrite [] (save_filename n1) (dumps r1)) = _
    rw [fsWrite_nil, hK1]
  have e2 : (save_resume_data n2 r2 true [(save_filename n1, dumps r1)]).1 =
      [(save_filename n1, dumps r1), (save_filename n2, dumps r2)] := by
    show (fsWrite [(save_filename n1, dumps r1)] (save_filename n2) (dumps r2)) = _
    rw [fsWrite_append_new, hK2]
    · rfl
    · rw [hK2]
      simp [beq_eq_false_iff_ne.mpr hne12]
  have e3 : (save_resume_data n3 r3 true
      [(save_filename n1, dumps r1), (save_filename n2, dumps r2)]).1 =
      [(save_filename n1, dumps r1), (save_filename n2, dumps r2),
       (save_filename n3, dumps r3)] := by
    show (fsWrite [(save_filename n1, dumps r1), (save_filename n2, dumps r2)]
      (save_filename n3) (dumps r3)) = _
    rw [fsWrite_append_new, hK3]
    · rfl
    · rw [hK3]
      simp [beq_eq_false_iff_ne.mpr hne13, beq_eq_false_iff_ne.mpr hne23]
  rw [e1, e2, e3]
  have hb1 := save_filename_data n1 h1
  have hb2 := save_filename_data n2 h2
  have hb3 := save_filename_data n3 h3
  have hsl : ∀ n : String, '/' ∉ (normalize_name n).data →
      '/' ∉ (normalize_name n).data ++ "_resume.json".data := by
    intro n hn hmem
    rcases List.mem_append.mp hmem with hm | hm
    · exact hn hm
    · exact absurd hm (by decide)
  have hld : listdir "saves"
      [(save_filename n1, dumps r1), (save_filename n2, dumps r2),
       (save_filename n3, dumps r3)] =
      [String.mk ((normalize_name n1).data ++ "_resume.json".data),
       String.mk ((normalize_name n2).data ++ "_resume.json".data),
       String.mk ((normalize_name n3).data ++ "_resume.json".data)] := by
    simp only [listdir, List.filterMap]
    rw [listdir_saves_entry _ _ hb1 (hsl n1 h1),
        listdir_saves_entry _ _ hb2 (hsl n2 h2),
        listdir_saves_entry _ _ hb3 (hsl n3 h3)]
  have hmkapp : ∀ n : String,
      String.mk ((normalize_name n).data ++ "_resume.json".data) =
        normalize_name n ++ "_resume.json" := by
    intro n
    rfl
  have hsuf : ∀ x : List Char,
      ("_resume.json".data.isSuffixOf (x ++ "_resume.json".data)) = true := by
    intro x
    rw [List.isSuffixOf_iff_suffix]
    exact List.suffix_append x _
  simp only [get_saved_resumes, hld, hmkapp]
  simp only [List.filter, string_data_mk, String.data_append, hsuf, List.map]
  rfl

/-- Witness for C8 at three concrete display names. -/
theorem C8_list_after_three_saves_witness :
    (get_saved_resumes
      (save_resume_data "Ann Lee" [] true
        (save_resume_data "Bob Jones" [] true
          (save_resume_data "Jane Doe" [] true ([] : FS)).1).1).1 : Multiset String) =
      {"Jane Doe", "Bob Jones", "Ann Lee"} := by
  have h := C8_list_after_three_saves "Jane Doe" "Bob Jones" "Ann Lee" [] [] []
    (by decide) (by decide) (by decide) (by decide) (by decide) (by decide)
  exact h.trans (by decide)
